import Mathlib

/-!
Shallow embedding of the portfolio engine of the StockTradingApp repository.

Money and prices are modelled as rational numbers, share counts as integers
(JavaScript integer arithmetic on these quantities is exact in the ranges of
interest).  Parse failures (NaN results of parseInt / parseFloat) and missing
fields are modelled with Option.  JavaScript objects used as string-keyed maps
are modelled as functions from String to Option values.  Division by zero in
the rationals returns 0; the only code path where the JavaScript source can
divide by zero (a SELL folded onto a zero-share position) produces an entry
that is afterwards dropped by the shares filter, so no claim below depends on
that value.
-/

/-- ASCII uppercasing of a string, mirroring the use of toUpperCase on the
transaction type strings of the source (which are ASCII). -/
def jsUpper (s : String) : String :=
  ⟨s.data.map Char.toUpper⟩

/-- Removal of the first occurrence of the substring consisting of a dot
followed by the letter L, mirroring the single-replacement semantics of the
JavaScript expression replacing that substring with the empty string. -/
def stripLAux : List Char → List Char
  | [] => []
  | '.' :: 'L' :: rest => rest
  | c :: rest => c :: stripLAux rest

/-- String front end of stripLAux. -/
def stripL (s : String) : String :=
  ⟨stripLAux s.data⟩

/-- A transaction record as consumed by calculatePortfolio in
src/src/StockTradingApp.jsx.  The symbol is the result of the expression
choosing t.symbol or t.stock_symbol (none when both are missing or empty,
which the source skips); quantity and price are the results of parseInt and
parseFloat (none models NaN, which the source skips). -/
structure Tx where
  symbol : Option String
  type : String
  quantity : Option Int
  price : Option ℚ
  transaction_date : Option Int
deriving DecidableEq

/-- Per-symbol accumulator of the holdings map built by calculatePortfolio:
shares and totalCost (the transactions sub-array of the source is
presentational and not modelled). -/
structure HAcc where
  shares : Int
  totalCost : ℚ
deriving DecidableEq

/-- The holdings map object of calculatePortfolio, keyed by symbol. -/
def HMap : Type := String → Option HAcc

/-- The empty holdings map. -/
def emptyHoldings : HMap := fun _ => none

/-- Assignment of one key of the holdings map. -/
def mapSet (m : HMap) (k : String) (v : HAcc) : HMap :=
  fun x => if x = k then some v else m x

/-- The body of the per-transaction fold of calculatePortfolio
(src/src/StockTradingApp.jsx lines 154-183) once symbol, quantity and price
have been extracted: the entry is created on first sighting, a BUY adds q
shares and q * p cost, a SELL subtracts q shares first and then reduces
totalCost by the ratio q / (shares + q) where shares is the already
decremented value, and any other type leaves the entry as created. -/
def applyParsed (m : HMap) (sym upT : String) (q : Int) (p : ℚ) : HMap :=
  let cur := (m sym).getD ⟨0, 0⟩
  if upT = "BUY" then
    mapSet m sym ⟨cur.shares + q, cur.totalCost + (q : ℚ) * p⟩
  else if upT = "SELL" then
    let newShares := cur.shares - q
    let ratio : ℚ := (q : ℚ) / (((newShares : ℚ)) + (q : ℚ))
    mapSet m sym ⟨newShares, cur.totalCost - cur.totalCost * ratio⟩
  else
    mapSet m sym cur

/-- One step of the transaction fold of calculatePortfolio: transactions with
a missing symbol or unparseable quantity or price are skipped, every other
transaction is dispatched on the uppercased type. -/
def applyTx (m : HMap) (t : Tx) : HMap :=
  match t.symbol with
  | none => m
  | some sym =>
    match t.quantity, t.price with
    | some q, some p => applyParsed m sym (jsUpper t.type) q p
    | _, _ => m

/-- The raw holdings map after folding a whole transaction list, before the
shares filter (calculatePortfolio step 1). -/
def aggregateRaw (ts : List Tx) : HMap :=
  ts.foldl applyTx emptyHoldings

/-- Holdings after the filter of calculatePortfolio step 2: entries whose
shares are not strictly positive are deleted. -/
def calcHoldings (ts : List Tx) : String → Option HAcc :=
  fun s =>
    match aggregateRaw ts s with
    | some a => if 0 < a.shares then some a else none
    | none => none

/-- A surviving holding enriched with the average price computed in
calculatePortfolio step 2. -/
structure Holding where
  shares : Int
  totalCost : ℚ
  avgPrice : ℚ
deriving DecidableEq

/-- Average-price enrichment of a surviving accumulator entry. -/
def toHolding (a : HAcc) : Holding :=
  ⟨a.shares, a.totalCost, a.totalCost / (a.shares : ℚ)⟩

/-- The final holdings view of calculatePortfolio keyed by symbol. -/
def holdingsOf (ts : List Tx) : String → Option Holding :=
  fun s => (calcHoldings ts s).map toHolding

/-- Shares recorded for a symbol in a holdings map, 0 when absent. -/
def sharesOf (m : HMap) (s : String) : Int :=
  ((m s).map HAcc.shares).getD 0

/-- Total cost recorded for a symbol in a holdings map, 0 when absent. -/
def costOf (m : HMap) (s : String) : ℚ :=
  ((m s).map HAcc.totalCost).getD 0

/-- Signed share contribution of one transaction to one symbol, mirroring the
share bookkeeping of the fold: q for a BUY of the symbol, minus q for a SELL
of the symbol, 0 otherwise or when the transaction is skipped. -/
def txShareDelta (s : String) (t : Tx) : Int :=
  match t.symbol with
  | none => 0
  | some sym =>
    match t.quantity, t.price with
    | some q, some _ =>
      if s = sym then
        if jsUpper t.type = "BUY" then q
        else if jsUpper t.type = "SELL" then -q
        else 0
      else 0
    | _, _ => 0

/-- Net share position of a symbol over a transaction list. -/
def netShares (s : String) (ts : List Tx) : Int :=
  (ts.map (txShareDelta s)).sum

/-- A raw quote as returned by the quotes endpoint: symbol, regular market
price and currency code. -/
structure RawQuote where
  symbol : String
  regularMarketPrice : ℚ
  currency : String
deriving DecidableEq

/-- The price dictionary built by the reduce over quotes in
calculatePortfolio, keyed by symbol variants. -/
def PMap : Type := String → Option ℚ

/-- Assignment of one key of the price dictionary. -/
def pmSet (m : PMap) (k : String) (v : ℚ) : PMap :=
  fun x => if x = k then some v else m x

/-- One step of the quote reduce of calculatePortfolio lines 224-241: the
price is divided by 100 when the currency is the minor-unit code of the base
currency, and the value is stored under the exact symbol, the symbol with the
exchange suffix appended, and the symbol with the suffix removed. -/
def addQuote (m : PMap) (q : RawQuote) : PMap :=
  let price := if q.currency = "GBp" then q.regularMarketPrice / 100
               else q.regularMarketPrice
  pmSet (pmSet (pmSet m q.symbol price) (q.symbol ++ ".L") price)
    (stripL q.symbol) price

/-- The whole price dictionary from a list of quotes. -/
def buildPM (qs : List RawQuote) : PMap :=
  qs.foldl addQuote (fun _ => none)

/-- An entry of the locally cached stock data used as fallback price source
in calculatePortfolio. -/
structure Stock where
  symbol : String
  price : ℚ
deriving DecidableEq

/-- JavaScript truthiness-based choice between two optional numbers: the left
operand is taken when present and nonzero, otherwise the right one. -/
def jsOrQ (a b : Option ℚ) : Option ℚ :=
  match a with
  | some v => if v = 0 then b else some v
  | none => b

/-- Price resolution of calculatePortfolio step 3: the dictionary is probed
with the exact symbol, the symbol with the suffix removed, and the symbol
with the suffix appended, a zero or missing value falling through; when all
probes are falsy the locally cached stock list is searched by exact or
suffix-stripped symbol, and a missing entry there yields 0. -/
def resolvePrice (pm : PMap) (sd : List Stock) (sym : String) : ℚ :=
  let viaMap : ℚ :=
    (jsOrQ (pm sym) (jsOrQ (pm (stripL sym)) (pm (sym ++ ".L")))).getD 0
  if viaMap = 0 then
    match sd.find? (fun st => st.symbol == sym || stripL st.symbol == stripL sym) with
    | some st => st.price
    | none => 0
  else viaMap

/-- An enriched portfolio entry as produced by the map of calculatePortfolio
step 3 (the display name is presentational and not modelled). -/
structure Enriched where
  symbol : String
  shares : Int
  avgPrice : ℚ
  currentPrice : ℚ
  marketValue : ℚ
  profitLoss : ℚ
  returnPercent : ℚ
deriving DecidableEq

/-- The body of the map of calculatePortfolio step 3: resolve a current
price, compute market value and unrealized profit and loss, and compute the
return percentage under the positive-total-cost guard. -/
def enrich (pm : PMap) (sd : List Stock) (sym : String) (h : Holding) : Enriched :=
  let currentPrice := resolvePrice pm sd sym
  let marketValue := (h.shares : ℚ) * currentPrice
  let profitLoss := marketValue - h.totalCost
  let returnPercent :=
    if 0 < h.totalCost then profitLoss / h.totalCost * 100 else 0
  ⟨sym, h.shares, h.avgPrice, currentPrice, marketValue, profitLoss, returnPercent⟩

/-- The utility convertGBXtoGBP of the backend bundle (src/unnamed/part_002
lines 2318-2325): a missing or unparseable value yields 0, a value tagged
with either minor-unit code is divided by 100, anything else passes through
unchanged. -/
def convertGBXtoGBP (value : Option ℚ) (currency : String) : ℚ :=
  match value with
  | none => 0
  | some v =>
    if currency = "GBX" ∨ currency = "GBp" then v / 100 else v

/-- The stock details held by the trading view when a trade is submitted. -/
structure StockDetails where
  symbol : String
  askPrice : ℚ
  bidPrice : ℚ
deriving DecidableEq

/-- A trade order as passed to the onTrade callback. -/
structure TradeOrder where
  symbol : String
  type : String
  price : ℚ
  quantity : Int
deriving DecidableEq

/-- The validation and dispatch of handleTradeSubmission (src/unnamed/part_002
lines 2547-2574): without stock details the submission is rejected; the trade
price is the ask price for a BUY and the bid price otherwise; a BUY whose
total cost exceeds the available cash is rejected; every other submission is
passed on as a trade order. -/
def handleTradeSubmission (details : Option StockDetails) (cash : ℚ)
    (type : String) (quantity : Int) : Option TradeOrder :=
  match details with
  | none => none
  | some sd =>
    let tradePrice := if type = "BUY" then sd.askPrice else sd.bidPrice
    let totalCost := tradePrice * (quantity : ℚ)
    if type = "BUY" ∧ cash < totalCost then none
    else some ⟨sd.symbol, type, tradePrice, quantity⟩

/-- A transaction request body as received by the POST transactions endpoint. -/
structure TxRequest where
  userId : Int
  symbol : String
  type : String
  price : ℚ
  quantity : Int
deriving DecidableEq

/-- A persisted ledger row. -/
structure LedgerRow where
  userId : Int
  symbol : String
  type : String
  price : ℚ
  quantity : Int
deriving DecidableEq

/-- The database state touched by the POST transactions endpoint for one
user: the cash balance and the append-only transaction ledger. -/
structure DB where
  cash : ℚ
  ledger : List LedgerRow
deriving DecidableEq

/-- The POST transactions endpoint (src/unnamed/part_002 lines 1714-1804): a
request with a falsy field is rejected, the type is uppercased and must be
BUY or SELL, and an accepted request appends the ledger row and adjusts the
cash balance by the total amount, both inside one database transaction,
modelled here as the single atomic state update of this function; none means
no state change. -/
def postTransaction (db : DB) (r : TxRequest) : Option DB :=
  if r.userId = 0 ∨ r.symbol = "" ∨ r.type = "" ∨ r.price = 0 ∨ r.quantity = 0 then
    none
  else
    let nt := jsUpper r.type
    if nt = "BUY" ∨ nt = "SELL" then
      let total := r.price * (r.quantity : ℚ)
      some ⟨db.cash - (if nt = "BUY" then total else -total),
            db.ledger ++ [⟨r.userId, r.symbol, nt, r.price, r.quantity⟩]⟩
    else
      none

/-- A row of the Transactions table as selected by the GET transactions
endpoint. -/
structure TxRow where
  symbol : String
  type : String
  price : ℚ
  quantity : Int
  transaction_date : Int
deriving DecidableEq

/-- The ordering relation of the GET transactions endpoint query
(src/unnamed/part_002 lines 1606-1618), which orders rows by
transaction_date DESC. -/
def newerFirst (a b : TxRow) : Prop :=
  b.transaction_date ≤ a.transaction_date

instance : DecidableRel newerFirst :=
  fun a b => Int.decLe b.transaction_date a.transaction_date

instance : IsTotal TxRow newerFirst :=
  ⟨fun a b => le_total b.transaction_date a.transaction_date⟩

instance : IsTrans TxRow newerFirst :=
  ⟨fun _ _ _ hab hbc => le_trans hbc hab⟩

/-- The GET transactions endpoint for one user: the rows of the user are
returned ordered by transaction_date DESC. -/
def getTransactions (rows : List TxRow) : List TxRow :=
  List.insertionSort newerFirst rows

/-- Conversion of a fetched row into the transaction record consumed by
calculatePortfolio. -/
def rowToTx (r : TxRow) : Tx :=
  ⟨some r.symbol, r.type, some r.quantity, some r.price, some r.transaction_date⟩

/-- The SELL branch of the fold body written out explicitly. -/
lemma applyParsed_sell (m : HMap) (sym : String) (q : Int) (p : ℚ) :
    applyParsed m sym "SELL" q p =
      mapSet m sym
        ⟨((m sym).getD ⟨0, 0⟩).shares - q,
          ((m sym).getD ⟨0, 0⟩).totalCost - ((m sym).getD ⟨0, 0⟩).totalCost *
            ((q : ℚ) / (((((m sym).getD ⟨0, 0⟩).shares - q : ℤ) : ℚ) + (q : ℚ)))⟩ := by
  unfold applyParsed
  rw [if_neg (by decide : ¬ ("SELL" : String) = "BUY"), if_pos rfl]

/-- C1: on a partial SELL of q shares out of a position of s shares at total
cost c (0 < q < s), the fold reduces the position to s - q shares at total
cost c - c * (q / s), that is by the fraction q / s of the pre-sale position,
and the average cost of the remaining shares equals the average cost before
the sell, for every sale price p. -/
theorem sell_keeps_average_cost (m : HMap) (sym : String) (s q : Int)
    (c p : ℚ) (d : Option Int) (hm : m sym = some ⟨s, c⟩)
    (hq : 0 < q) (hlt : q < s) :
    (applyTx m ⟨some sym, "SELL", some q, some p, d⟩) sym
        = some ⟨s - q, c - c * ((q : ℚ) / (s : ℚ))⟩ ∧
    (c - c * ((q : ℚ) / (s : ℚ))) / ((s : ℚ) - (q : ℚ)) = c / (s : ℚ) := by
  have hs : 0 < s := lt_trans hq hlt
  have hs0 : (s : ℚ) ≠ 0 := Int.cast_ne_zero.mpr (ne_of_gt hs)
  have hsq0 : (s : ℚ) - (q : ℚ) ≠ 0 := by
    have : (q : ℚ) < (s : ℚ) := by exact_mod_cast hlt
    exact sub_ne_zero.mpr (ne_of_gt this)
  constructor
  · show (applyParsed m sym (jsUpper "SELL") q p) sym = _
    rw [show jsUpper "SELL" = "SELL" from by decide, applyParsed_sell, hm]
    have hden : (((s - q : ℤ) : ℚ)) + (q : ℚ) = (s : ℚ) := by push_cast; ring
    simp [mapSet, hden]
  · field_simp
    ring

/-- Concrete run of the partial-sell theorem: selling 5 of 20 shares held at
total cost 3000 leaves 15 shares at total cost 2250 and the average cost 150
unchanged, for the sale price 999. -/
theorem sell_keeps_average_cost_witness :
    ((fun x => if x = "BARC.L" then some (⟨20, 3000⟩ : HAcc) else none) "BARC.L"
        = some ⟨20, 3000⟩) ∧
    (applyTx (fun x => if x = "BARC.L" then some ⟨20, 3000⟩ else none)
        ⟨some "BARC.L", "SELL", some 5, some 999, none⟩) "BARC.L"
        = some ⟨15, 3000 - 3000 * ((5 : ℚ) / (20 : ℚ))⟩ ∧
    (3000 - 3000 * ((5 : ℚ) / (20 : ℚ))) / ((20 : ℚ) - (5 : ℚ)) = 3000 / (20 : ℚ) := by
  have h := sell_keeps_average_cost
    (fun x => if x = "BARC.L" then some ⟨20, 3000⟩ else none) "BARC.L"
    20 5 3000 999 none (by simp) (by decide) (by decide)
  exact ⟨by simp, by simpa using h.1, h.2⟩

/-- C5: whenever the total cost of a holding is zero, the return percentage
computed by the valuation step is zero; the division by totalCost occurs only
under the strict positivity guard in the definition of enrich, so no
divide-by-zero value is ever produced. -/
theorem zero_cost_guard (pm : PMap) (sd : List Stock) (sym : String)
    (h : Holding) (hc : h.totalCost = 0) :
    (enrich pm sd sym h).returnPercent = 0 := by
  unfold enrich
  simp [hc]

/-- Concrete run of the zero-cost guard: a holding of 5 shares at total cost
0 valued without any quotes has return percentage 0. -/
theorem zero_cost_guard_witness :
    ((⟨5, 0, 0⟩ : Holding).totalCost = 0) ∧
    (enrich (buildPM []) [] "AAPL" ⟨5, 0, 0⟩).returnPercent = 0 :=
  ⟨rfl, zero_cost_guard (buildPM []) [] "AAPL" ⟨5, 0, 0⟩ rfl⟩

/-- C7: the quote normalizer divides the raw price by 100 exactly when the
currency is one of the minor-unit codes of the base currency and passes the
price through unchanged otherwise; the raw price 215.75 tagged with the
minor-unit code normalizes to 2.1575. -/
theorem minor_unit_normalization (p : ℚ) (c : String) :
    ((c = "GBX" ∨ c = "GBp") → convertGBXtoGBP (some p) c = p / 100) ∧
    (c ≠ "GBX" → c ≠ "GBp" → convertGBXtoGBP (some p) c = p) ∧
    convertGBXtoGBP (some (215.75 : ℚ)) "GBp" = (2.1575 : ℚ) := by
  refine ⟨fun hc => ?_, fun h1 h2 => ?_, ?_⟩
  · show (if c = "GBX" ∨ c = "GBp" then p / 100 else p) = p / 100
    rw [if_pos hc]
  · show (if c = "GBX" ∨ c = "GBp" then p / 100 else p) = p
    rw [if_neg (by tauto)]
  · show (if ("GBp" : String) = "GBX" ∨ ("GBp" : String) = "GBp"
        then (215.75 : ℚ) / 100 else (215.75 : ℚ)) = (2.1575 : ℚ)
    rw [if_pos (Or.inr rfl)]
    norm_num

/-- Concrete runs of the quote normalizer: a minor-unit price of 100 becomes
1, a base-currency price of 100 passes through, and the scenario price 215.75
normalizes to 2.1575. -/
theorem minor_unit_normalization_witness :
    convertGBXtoGBP (some 100) "GBp" = 100 / 100 ∧
    convertGBXtoGBP (some 100) "GBP" = 100 ∧
    convertGBXtoGBP (some (215.75 : ℚ)) "GBp" = (2.1575 : ℚ) :=
  ⟨(minor_unit_normalization 100 "GBp").1 (Or.inr rfl),
   (minor_unit_normalization 100 "GBP").2.1 (by decide) (by decide),
   (minor_unit_normalization 0 "GBP").2.2⟩

/-- C4 as amended: a holding whose symbol resolves to no quote at all (none
of the three dictionary probes match and the cached stock list has no entry)
is valued at current price 0, market value 0 and profit and loss equal to
minus its total cost, and its return percentage is -100 whenever the total
cost is positive. -/
theorem no_quote_pessimistic (pm : PMap) (sd : List Stock) (sym : String)
    (h : Holding) (h1 : pm sym = none) (h2 : pm (stripL sym) = none)
    (h3 : pm (sym ++ ".L") = none)
    (h4 : sd.find? (fun st => st.symbol == sym || stripL st.symbol == stripL sym)
        = none)
    (hc : 0 < h.totalCost) :
    (enrich pm sd sym h).currentPrice = 0 ∧
    (enrich pm sd sym h).marketValue = 0 ∧
    (enrich pm sd sym h).profitLoss = -h.totalCost ∧
    (enrich pm sd sym h).returnPercent = -100 := by
  have hc0 : h.totalCost ≠ 0 := ne_of_gt hc
  have hres : resolvePrice pm sd sym = 0 := by
    unfold resolvePrice
    rw [h1, h2, h3]
    simp [jsOrQ, h4]
  refine ⟨?_, ?_, ?_, ?_⟩
  · show resolvePrice pm sd sym = 0
    exact hres
  · show (h.shares : ℚ) * resolvePrice pm sd sym = 0
    rw [hres, mul_zero]
  · show (h.shares : ℚ) * resolvePrice pm sd sym - h.totalCost = -h.totalCost
    rw [hres, mul_zero, zero_sub]
  · show (if 0 < h.totalCost then
        ((h.shares : ℚ) * resolvePrice pm sd sym - h.totalCost) / h.totalCost * 100
      else 0) = -100
    rw [if_pos hc, hres, mul_zero, zero_sub, neg_div, div_self hc0]
    norm_num

/-- Concrete run of the pessimistic fallback: 10 shares held at total cost
1000 with no resolvable quote are valued at 0 with profit and loss -1000 and
return percentage -100. -/
theorem no_quote_pessimistic_witness :
    buildPM [] "BARC.L" = none ∧
    (0 : ℚ) < (⟨10, 1000, 100⟩ : Holding).totalCost ∧
    (enrich (buildPM []) [] "BARC.L" ⟨10, 1000, 100⟩).currentPrice = 0 ∧
    (enrich (buildPM []) [] "BARC.L" ⟨10, 1000, 100⟩).marketValue = 0 ∧
    (enrich (buildPM []) [] "BARC.L" ⟨10, 1000, 100⟩).profitLoss
        = -(⟨10, 1000, 100⟩ : Holding).totalCost ∧
    (enrich (buildPM []) [] "BARC.L" ⟨10, 1000, 100⟩).returnPercent = -100 := by
  have h := no_quote_pessimistic (buildPM []) [] "BARC.L" ⟨10, 1000, 100⟩
    rfl rfl rfl rfl (by norm_num)
  exact ⟨rfl, by norm_num, h.1, h.2.1, h.2.2.1, h.2.2.2⟩

/-- C4 as frozen is refuted at a zero-cost holding: a holding of 1 share at
total cost 0 whose symbol resolves to no quote at all is given return
percentage 0 by the zero-cost guard, not -100. -/
theorem no_quote_zero_cost_counterexample :
    buildPM [] "ABC" = none ∧
    buildPM [] (stripL "ABC") = none ∧
    buildPM [] ("ABC" ++ ".L") = none ∧
    (([] : List Stock).find?
        (fun st => st.symbol == "ABC" || stripL st.symbol == stripL "ABC") = none) ∧
    (enrich (buildPM []) [] "ABC" ⟨1, 0, 0⟩).returnPercent = 0 ∧
    (enrich (buildPM []) [] "ABC" ⟨1, 0, 0⟩).returnPercent ≠ -100 := by
  refine ⟨rfl, rfl, rfl, rfl, ?_, ?_⟩
  · show (if (0 : ℚ) < 0 then
        ((1 : ℚ) * resolvePrice (buildPM []) [] "ABC" - 0) / 0 * 100 else 0) = 0
    rw [if_neg (lt_irrefl 0)]
  · show (if (0 : ℚ) < 0 then
        ((1 : ℚ) * resolvePrice (buildPM []) [] "ABC" - 0) / 0 * 100 else 0) ≠ -100
    rw [if_neg (lt_irrefl 0)]
    norm_num

/-- Shares stored under a key after one map assignment. -/
lemma sharesOf_mapSet (m : HMap) (k : String) (v : HAcc) (s : String) :
    sharesOf (mapSet m k v) s = if s = k then v.shares else sharesOf m s := by
  unfold sharesOf mapSet
  by_cases h : s = k <;> simp [h]

/-- Total cost stored under a key after one map assignment. -/
lemma costOf_mapSet (m : HMap) (k : String) (v : HAcc) (s : String) :
    costOf (mapSet m k v) s = if s = k then v.totalCost else costOf m s := by
  unfold costOf mapSet
  by_cases h : s = k <;> simp [h]

/-- The shares of the defaulted current entry agree with sharesOf. -/
lemma getD_shares (m : HMap) (sym : String) :
    ((m sym).getD ⟨0, 0⟩).shares = sharesOf m sym := by
  unfold sharesOf
  cases m sym <;> simp

/-- The total cost of the defaulted current entry agrees with costOf. -/
lemma getD_cost (m : HMap) (sym : String) :
    ((m sym).getD ⟨0, 0⟩).totalCost = costOf m sym := by
  unfold costOf
  cases m sym <;> simp

/-- One fold step changes the shares of any symbol by exactly the signed
share contribution of the transaction. -/
lemma sharesOf_applyTx (m : HMap) (t : Tx) (s : String) :
    sharesOf (applyTx m t) s = sharesOf m s + txShareDelta s t := by
  obtain ⟨osym, ty, oq, op, od⟩ := t
  cases osym with
  | none => simp [applyTx, txShareDelta]
  | some sym =>
    cases oq with
    | none => simp [applyTx, txShareDelta]
    | some q =>
      cases op with
      | none => simp [applyTx, txShareDelta]
      | some p =>
        show sharesOf (applyParsed m sym (jsUpper ty) q p) s = _
        unfold applyParsed
        by_cases hb : jsUpper ty = "BUY"
        · rw [if_pos hb, sharesOf_mapSet]
          simp only [txShareDelta, hb, if_pos rfl]
          by_cases hss : s = sym <;> simp [hss, getD_shares]
        · rw [if_neg hb]
          by_cases hsl : jsUpper ty = "SELL"
          · rw [if_pos hsl, sharesOf_mapSet]
            simp only [txShareDelta, hb, hsl, if_neg, if_pos rfl]
            by_cases hss : s = sym <;>
              simp [hss, getD_shares, hb, sub_eq_add_neg]
          · rw [if_neg hsl, sharesOf_mapSet]
            simp only [txShareDelta, hb, hsl]
            by_cases hss : s = sym <;> simp [hss, getD_shares, hb, hsl]

/-- Folding a transaction list changes the shares of any symbol by the sum of
the signed share contributions. -/
lemma sharesOf_foldl (s : String) :
    ∀ (ts : List Tx) (m : HMap),
      sharesOf (ts.foldl applyTx m) s = sharesOf m s + (ts.map (txShareDelta s)).sum
  | [], m => by simp
  | t :: ts, m => by
    simp only [List.foldl_cons, List.map_cons, List.sum_cons]
    rw [sharesOf_foldl s ts (applyTx m t), sharesOf_applyTx]
    ring

/-- C6: a symbol whose net share position over the whole transaction list is
not positive is absent from the filtered holdings; in particular a SELL that
exactly matches the current shares leaves a net position of zero and removes
the symbol. -/
theorem nonpositive_net_position_absent (ts : List Tx) (sym : String)
    (h : netShares sym ts ≤ 0) : calcHoldings ts sym = none := by
  have hsh : sharesOf (aggregateRaw ts) sym = netShares sym ts := by
    unfold aggregateRaw netShares
    rw [sharesOf_foldl]
    simp [sharesOf, emptyHoldings]
  unfold calcHoldings
  cases hma : aggregateRaw ts sym with
  | none => rfl
  | some a =>
    have ha : a.shares = netShares sym ts := by
      rw [← hsh]
      unfold sharesOf
      rw [hma]
      rfl
    have hnp : ¬ 0 < a.shares := by
      rw [ha]
      exact not_lt.mpr h
    show (if 0 < a.shares then some a else none) = none
    rw [if_neg hnp]

/-- Concrete full liquidation: buying 10 at 100 and 10 at 200 and then
selling all 20 leaves a net position of 0 and no holding for the symbol. -/
theorem nonpositive_net_position_absent_witness :
    netShares "BARC.L"
      [⟨some "BARC.L", "BUY", some 10, some 100, none⟩,
       ⟨some "BARC.L", "BUY", some 10, some 200, none⟩,
       ⟨some "BARC.L", "SELL", some 20, some 50, none⟩] ≤ 0 ∧
    calcHoldings
      [⟨some "BARC.L", "BUY", some 10, some 100, none⟩,
       ⟨some "BARC.L", "BUY", some 10, some 200, none⟩,
       ⟨some "BARC.L", "SELL", some 20, some 50, none⟩] "BARC.L" = none :=
  ⟨by decide, nonpositive_net_position_absent _ _ (by decide)⟩

/-- A fold step does not look at the transaction date. -/
lemma applyTx_date (m : HMap) (t : Tx) (d : Option Int) :
    applyTx m { t with transaction_date := d } = applyTx m t := by
  cases t
  rfl

/-- C8: the holdings aggregation is a pure function of the transaction list:
running it twice on the same list yields the same result, and rewriting every
transaction date by an arbitrary function (in particular any dependence on a
wall clock) leaves the result unchanged. -/
theorem aggregation_pure (ts : List Tx) (f : Tx → Option Int) :
    calcHoldings ts = calcHoldings ts ∧
    calcHoldings (ts.map fun t => { t with transaction_date := f t })
        = calcHoldings ts := by
  refine ⟨rfl, ?_⟩
  have key : ∀ (l : List Tx) (m : HMap),
      (l.map fun t => { t with transaction_date := f t }).foldl applyTx m
        = l.foldl applyTx m := by
    intro l
    induction l with
    | nil => intro m; rfl
    | cons t l ih =>
      intro m
      simp only [List.map_cons, List.foldl_cons, applyTx_date]
      exact ih _
  unfold calcHoldings aggregateRaw
  rw [key]

/-- The signed share contribution of a transaction of unknown type is zero. -/
lemma txShareDelta_other (s : String) (t : Tx)
    (h1 : jsUpper t.type ≠ "BUY") (h2 : jsUpper t.type ≠ "SELL") :
    txShareDelta s t = 0 := by
  obtain ⟨osym, ty, oq, op, od⟩ := t
  cases osym <;> cases oq <;> cases op <;> simp [txShareDelta, h1, h2]

/-- C10: a transaction whose uppercased type is neither BUY nor SELL leaves
the shares and the total cost of every symbol unchanged, and the fold reads
the type only through uppercasing, so two transactions equal up to the case
of their type have identical effect. -/
theorem unknown_type_ignored (m : HMap) (t : Tx) (s : String)
    (h1 : jsUpper t.type ≠ "BUY") (h2 : jsUpper t.type ≠ "SELL") :
    (sharesOf (applyTx m t) s = sharesOf m s ∧
     costOf (applyTx m t) s = costOf m s) ∧
    ∀ u v : Tx, u.symbol = v.symbol → u.quantity = v.quantity →
      u.price = v.price → u.transaction_date = v.transaction_date →
      jsUpper u.type = jsUpper v.type → applyTx m u = applyTx m v := by
  constructor
  · constructor
    · rw [sharesOf_applyTx, txShareDelta_other s t h1 h2, add_zero]
    · obtain ⟨osym, ty, oq, op, od⟩ := t
      cases osym with
      | none => rfl
      | some sym =>
        cases oq with
        | none => rfl
        | some q =>
          cases op with
          | none => rfl
          | some p =>
            show costOf (applyParsed m sym (jsUpper ty) q p) s = _
            unfold applyParsed
            rw [if_neg h1, if_neg h2, costOf_mapSet]
            by_cases hss : s = sym <;> simp [hss, getD_cost]
  · intro u v hs hq hp hd ht
    obtain ⟨us, ut, uq, up, ud⟩ := u
    obtain ⟨vs, vt, vq, vp, vd⟩ := v
    simp only at hs hq hp hd ht
    subst hs hq hp hd
    cases us with
    | none => rfl
    | some sym =>
      cases uq with
      | none => rfl
      | some q =>
        cases up with
        | none => rfl
        | some p =>
          show applyParsed m sym (jsUpper ut) q p = applyParsed m sym (jsUpper vt) q p
          rw [ht]

/-- Concrete runs: a DIVIDEND transaction leaves shares and cost of its
symbol unchanged, and a lowercase buy has the same effect as an uppercase
BUY. -/
theorem unknown_type_ignored_witness :
    jsUpper "DIVIDEND" ≠ "BUY" ∧
    (sharesOf (applyTx emptyHoldings
        ⟨some "AAPL", "DIVIDEND", some 3, some 2, none⟩) "AAPL"
      = sharesOf emptyHoldings "AAPL" ∧
     costOf (applyTx emptyHoldings
        ⟨some "AAPL", "DIVIDEND", some 3, some 2, none⟩) "AAPL"
      = costOf emptyHoldings "AAPL") ∧
    applyTx emptyHoldings ⟨some "AAPL", "buy", some 3, some 2, none⟩
      = applyTx emptyHoldings ⟨some "AAPL", "BUY", some 3, some 2, none⟩ := by
  have h := unknown_type_ignored emptyHoldings
    ⟨some "AAPL", "DIVIDEND", some 3, some 2, none⟩ "AAPL" (by decide) (by decide)
  exact ⟨by decide, h.1, h.2 _ _ rfl rfl rfl rfl (by decide)⟩

/-- C2: the ledger read endpoint returns the rows of a two-transaction
history newest first (dates [2, 1]), not oldest first, and the holdings
aggregation is sensitive to that order: folding the SELL before the BUY
yields a different holding than folding oldest first, so the reversed feed
changes the computed cost basis. -/
theorem ledger_read_newest_first :
    (getTransactions
        [⟨"BARC.L", "BUY", 100, 10, 1⟩, ⟨"BARC.L", "SELL", 110, 5, 2⟩]).map
      TxRow.transaction_date = [2, 1] ∧
    (1 : ℤ) < 2 ∧
    calcHoldings
        (([⟨"BARC.L", "SELL", 110, 5, 2⟩, ⟨"BARC.L", "BUY", 100, 10, 1⟩] :
            List TxRow).map rowToTx) "BARC.L"
      ≠ calcHoldings
        (([⟨"BARC.L", "BUY", 100, 10, 1⟩, ⟨"BARC.L", "SELL", 110, 5, 2⟩] :
            List TxRow).map rowToTx) "BARC.L" := by
  have hBUY : jsUpper "BUY" = "BUY" := by decide
  have hSELL : jsUpper "SELL" = "SELL" := by decide
  have hneq : ("SELL" : String) ≠ "BUY" := by decide
  have e1 : calcHoldings
      (([⟨"BARC.L", "SELL", 110, 5, 2⟩, ⟨"BARC.L", "BUY", 100, 10, 1⟩] :
          List TxRow).map rowToTx) "BARC.L" = some ⟨5, 1000⟩ := by
    norm_num [calcHoldings, aggregateRaw, applyTx, applyParsed, rowToTx, mapSet,
      emptyHoldings, hBUY, hSELL, hneq]
  have e2 : calcHoldings
      (([⟨"BARC.L", "BUY", 100, 10, 1⟩, ⟨"BARC.L", "SELL", 110, 5, 2⟩] :
          List TxRow).map rowToTx) "BARC.L" = some ⟨5, 500⟩ := by
    norm_num [calcHoldings, aggregateRaw, applyTx, applyParsed, rowToTx, mapSet,
      emptyHoldings, hBUY, hSELL, hneq]
  refine ⟨by decide, by decide, ?_⟩
  rw [e1, e2]
  intro hcontra
  have : (1000 : ℚ) = 500 := congrArg HAcc.totalCost (Option.some.injEq _ _ |>.mp hcontra)
  norm_num at this

/-- C3 as frozen is refuted by an oversell: with no prior transactions (so a
net position of 0 shares) a SELL of 5 shares passes the submission handler,
which validates funds only for BUY orders, and the endpoint accepts it and
appends it to the ledger. -/
theorem oversell_reaches_ledger :
    handleTradeSubmission (some ⟨"BARC.L", 10, 9⟩) 0 "SELL" 5
        = some ⟨"BARC.L", "SELL", 9, 5⟩ ∧
    netShares "BARC.L" [] = 0 ∧ (0 : ℤ) < 5 ∧
    (postTransaction ⟨0, []⟩ ⟨7, "BARC.L", "SELL", 9, 5⟩).map DB.ledger
        = some [⟨7, "BARC.L", "SELL", 9, 5⟩] := by
  refine ⟨by decide, by decide, by decide, by decide⟩

/-- C3 as amended: a BUY whose total cost exceeds the available cash is
rejected by the submission handler before any ledger append; no oversell
check exists for SELL orders. -/
theorem buy_insufficient_funds_rejected (sd : StockDetails) (cash : ℚ)
    (q : Int) (h : cash < sd.askPrice * (q : ℚ)) :
    handleTradeSubmission (some sd) cash "BUY" q = none := by
  have hcond : (("BUY" : String) = "BUY" ∧
      cash < (if ("BUY" : String) = "BUY" then sd.askPrice else sd.bidPrice)
        * (q : ℚ)) := ⟨rfl, by rw [if_pos rfl]; exact h⟩
  show (if ("BUY" : String) = "BUY" ∧
      cash < (if ("BUY" : String) = "BUY" then sd.askPrice else sd.bidPrice)
        * (q : ℚ) then none
    else some (⟨sd.symbol, "BUY",
      (if ("BUY" : String) = "BUY" then sd.askPrice else sd.bidPrice), q⟩ :
        TradeOrder)) = none
  rw [if_pos hcond]

/-- Concrete run: a BUY of 1 share at ask price 10 with cash 5 is rejected. -/
theorem buy_insufficient_funds_rejected_witness :
    ((5 : ℚ) < (⟨"AZN.L", 10, 9⟩ : StockDetails).askPrice * ((1 : ℤ) : ℚ)) ∧
    handleTradeSubmission (some ⟨"AZN.L", 10, 9⟩) 5 "BUY" 1 = none :=
  ⟨by norm_num, buy_insufficient_funds_rejected ⟨"AZN.L", 10, 9⟩ 5 1 (by norm_num)⟩

/-- C9: an accepted transaction request appends exactly one ledger row with
the uppercased type and adjusts the cash balance by exactly price times
quantity, decreased for a BUY and increased for a SELL; both updates are the
single atomic state transition of postTransaction. -/
theorem accepted_tx_atomic (db : DB) (r : TxRequest) (db' : DB)
    (hp : postTransaction db r = some db') :
    db'.ledger = db.ledger
        ++ [⟨r.userId, r.symbol, jsUpper r.type, r.price, r.quantity⟩] ∧
    (jsUpper r.type = "BUY" →
        db'.cash = db.cash - r.price * (r.quantity : ℚ)) ∧
    (jsUpper r.type = "SELL" →
        db'.cash = db.cash + r.price * (r.quantity : ℚ)) := by
  unfold postTransaction at hp
  by_cases h0 : r.userId = 0 ∨ r.symbol = "" ∨ r.type = "" ∨ r.price = 0 ∨
      r.quantity = 0
  · rw [if_pos h0] at hp
    exact absurd hp (by simp)
  · rw [if_neg h0] at hp
    by_cases hv : jsUpper r.type = "BUY" ∨ jsUpper r.type = "SELL"
    · rw [if_pos hv] at hp
      have hd : db' = ⟨db.cash -
          (if jsUpper r.type = "BUY" then r.price * (r.quantity : ℚ)
           else -(r.price * (r.quantity : ℚ))),
          db.ledger ++ [⟨r.userId, r.symbol, jsUpper r.type, r.price, r.quantity⟩]⟩ :=
        (Option.some.injEq _ _).mp hp.symm
      subst hd
      refine ⟨rfl, fun hb => ?_, fun hs => ?_⟩
      · show db.cash - (if jsUpper r.type = "BUY" then _ else _) = _
        rw [if_pos hb]
      · show db.cash - (if jsUpper r.type = "BUY" then _ else _) = _
        rw [if_neg (by rw [hs]; decide), sub_neg_eq_add]
    · rw [if_neg hv] at hp
      exact absurd hp (by simp)

/-- Concrete run: a lowercase buy of 3 shares at price 2 against a balance of
100 is accepted, appends the uppercased row, and leaves cash 94 = 100 - 6. -/
theorem accepted_tx_atomic_witness :
    (postTransaction ⟨100, []⟩ ⟨1, "BARC.L", "buy", 2, 3⟩).map DB.ledger
        = some [⟨1, "BARC.L", "BUY", 2, 3⟩] ∧
    (postTransaction ⟨100, []⟩ ⟨1, "BARC.L", "buy", 2, 3⟩).map DB.cash
        = some ((100 : ℚ) - 2 * ((3 : ℤ) : ℚ)) := by
  have hps : (postTransaction ⟨100, []⟩ ⟨1, "BARC.L", "buy", 2, 3⟩).isSome := rfl
  obtain ⟨db', hdb⟩ := Option.isSome_iff_exists.mp hps
  have h := accepted_tx_atomic ⟨100, []⟩ ⟨1, "BARC.L", "buy", 2, 3⟩ db' hdb
  have hups : jsUpper "buy" = "BUY" := by decide
  rw [hdb]
  constructor
  · have hl := h.1
    rw [hups] at hl
    simp only [Option.map_some']
    rw [hl]
    rfl
  · have hc := h.2.1 hups
    simp only [Option.map_some']
    rw [hc]
